import Mathlib

/-!
Shallow embedding of the `glue3/child-contract` NEAR fungible-token contract
(`src/src/lib.rs`) for checking its natural-language specification.

Modelling conventions:

* `near_sdk::collections::UnorderedMap` is modelled as an association list in
  insertion order: `insert` replaces the first entry with a matching key or
  appends a fresh entry at the end; `get` returns the first match; `len` is the
  list length. The contract only ever inserts (never removes), so keys stay
  distinct and this matches the SDK's key-vector behaviour.
* `env::signer_account_id()` is passed as an explicit `signer` argument to
  every operation (the host supplies it implicitly in the source).
* A Rust `assert!` failure aborts the NEAR transaction and rolls back every
  state change; an aborted call is modelled as `Except.error e` with the
  pre-state kept by the caller. The error labels follow the spec's taxonomy,
  mapped to the individual assertions of the source:
  `assert!(self.canMint)` / `assert!(self.canBurn)` become
  `mintDisabled` / `burnDisabled`, the signer-identity assertions become
  `unauthorized`, and the `balance >= amount` assertions become
  `insufficientBalance`.
* `Balance` is `u128`. Rust `u128` subtraction here is always guarded by an
  assert, so it is exact; `u128` addition is modelled as wrapping modulo
  `2 ^ 128`. The repository's `Cargo.toml` (which fixes the release-profile
  overflow behaviour) is not part of the sources, so the addition semantics is
  modelled from the spec, whose BalanceStore contract says `credit` "never
  fails": the total, never-failing reading of `balance + amount` on `u128` is
  addition modulo `2 ^ 128`.
-/

namespace ChildContract

/-- Decidable equality for call results. -/
instance {ε α : Type} [DecidableEq ε] [DecidableEq α] :
    DecidableEq (Except ε α) := fun x y =>
  match x, y with
  | .ok a, .ok b =>
      if h : a = b then isTrue (by simp [h]) else isFalse (by simp [h])
  | .ok _, .error _ => isFalse (by simp)
  | .error _, .ok _ => isFalse (by simp)
  | .error e, .error f =>
      if h : e = f then isTrue (by simp [h]) else isFalse (by simp [h])

/-- NEAR `AccountId`, kept as a plain string. -/
abbrev AccountId := String

/-- The `u128` wrap-around modulus: balances live in `[0, 2 ^ 128)`. -/
def modulus : Nat := 2 ^ 128

/-- `FungibleTokenMetadata` from `near_contract_standards` (only carried along;
the contract never changes it after `new`). -/
structure FungibleTokenMetadata where
  spec : String
  name : String
  symbol : String
  icon : Option String
  decimals : Nat
  deriving DecidableEq, Repr

/-- Error taxonomy of the spec, mapped one-to-one onto the `assert!` calls of
the source (see the module docstring). -/
inductive Err where
  | unauthorized
  | insufficientBalance
  | mintDisabled
  | burnDisabled
  deriving DecidableEq, Repr

/-- NEP-141 events emitted through `FtMint.emit` / `FtTransfer.emit`. -/
inductive Event where
  | ftMint (owner_id : AccountId) (amount : Nat) (memo : Option String)
  | ftTransfer (old_owner_id : AccountId) (new_owner_id : AccountId)
      (amount : Nat) (memo : Option String)
  deriving DecidableEq, Repr

/-- Association-list model of `UnorderedMap<String, Balance>`. -/
abbrev UMap := List (String × Nat)

/-- `UnorderedMap::get`: first entry whose key matches. -/
def umGet : UMap → String → Option Nat
  | [], _ => none
  | (k0, v0) :: rest, k => if k0 = k then some v0 else umGet rest k

/-- `get(..).unwrap_or(0)`. -/
def umGetD (m : UMap) (k : String) : Nat :=
  (umGet m k).getD 0

/-- `UnorderedMap::insert`: replace the first entry with a matching key, or
append a new entry. -/
def umInsert : UMap → String → Nat → UMap
  | [], k, v => [(k, v)]
  | (k0, v0) :: rest, k, v =>
      if k0 = k then (k, v) :: rest else (k0, v0) :: umInsert rest k v

/-- Sum of all stored balances of a map. -/
def umSum (m : UMap) : Nat :=
  (m.map Prod.snd).sum

/-- The `Contract` struct of `src/src/lib.rs` (the `LazyOption` metadata is
inlined, since it is always present after `new`). -/
structure Contract where
  metadata : FungibleTokenMetadata
  fundAccounts : UMap
  accounts : UMap
  canMint : Bool
  canBurn : Bool
  ownerId : AccountId
  glueId : AccountId
  deriving DecidableEq, Repr

/-- `Contract::new`: builds the state owned by the signing account, credits the
signer with the whole supply and emits the initial `FtMint` event. -/
def new (signer : AccountId) (total_supply : Nat)
    (metadata : FungibleTokenMetadata) (can_mint : Bool) (can_burn : Bool)
    (glue_id : AccountId) : Contract × List Event :=
  ({ metadata := metadata
     accounts := umInsert [] signer total_supply
     fundAccounts := []
     canBurn := can_burn
     canMint := can_mint
     ownerId := signer
     glueId := glue_id },
   [Event.ftMint signer total_supply (some "Initial tokens supply is minted")])

/-- `Contract::internal_deposit`: `balance + amount` on `u128`, stored back
(wrapping modulo `2 ^ 128`, see the module docstring). Total: it never fails. -/
def internal_deposit (c : Contract) (account : AccountId) (amount : Nat) :
    Contract :=
  let balance := umGetD c.accounts account
  { c with accounts := umInsert c.accounts account ((balance + amount) % modulus) }

/-- `Contract::internal_withdraw`: `assert!(balance >= amount)` then exact
subtraction. -/
def internal_withdraw (c : Contract) (account : AccountId) (amount : Nat) :
    Except Err Contract :=
  let balance := umGetD c.accounts account
  if amount ≤ balance then
    .ok { c with accounts := umInsert c.accounts account (balance - amount) }
  else
    .error .insufficientBalance

/-- `Contract::burnToken`. -/
def burnToken (c : Contract) (signer : AccountId) (amount : Nat) :
    Except Err (Contract × List Event) :=
  if c.canBurn then
    if signer = c.ownerId then
      match internal_withdraw c c.ownerId amount with
      | .ok c' => .ok (c', [])
      | .error e => .error e
    else .error .unauthorized
  else .error .burnDisabled

/-- `Contract::mintToken`. -/
def mintToken (c : Contract) (signer : AccountId) (amount : Nat) :
    Except Err (Contract × List Event) :=
  if c.canMint then
    if signer = c.ownerId then
      .ok (internal_deposit c c.ownerId amount, [])
    else .error .unauthorized
  else .error .mintDisabled

/-- `Contract::ft_transfer`. -/
def ft_transfer (c : Contract) (signer : AccountId) (receiver_id : AccountId)
    (amount : Nat) : Except Err (Contract × List Event) :=
  match internal_withdraw c signer amount with
  | .ok c1 =>
      .ok (internal_deposit c1 receiver_id amount,
        [Event.ftTransfer signer receiver_id amount (some "transfered")])
  | .error e => .error e

/-- `Contract::sendToFund`. -/
def sendToFund (c : Contract) (signer : AccountId) (id : String) (amount : Nat) :
    Except Err (Contract × List Event) :=
  if signer = c.ownerId ∨ signer = c.glueId then
    match internal_withdraw c c.ownerId amount with
    | .ok c1 =>
        let balance := umGetD c1.fundAccounts id
        let new_balance := (balance + amount) % modulus
        .ok ({ c1 with fundAccounts := umInsert c1.fundAccounts id new_balance }, [])
    | .error e => .error e
  else .error .unauthorized

/-- `Contract::sendFromFund`. -/
def sendFromFund (c : Contract) (signer : AccountId) (id : String)
    (walletAddress : AccountId) (amount : Nat) :
    Except Err (Contract × List Event) :=
  if signer = c.ownerId ∨ signer = c.glueId then
    let balance := umGetD c.fundAccounts id
    if amount ≤ balance then
      let c1 := { c with fundAccounts := umInsert c.fundAccounts id (balance - amount) }
      let c2 := internal_deposit c1 walletAddress amount
      .ok (c2,
        [Event.ftTransfer c.ownerId walletAddress amount (some "transfered")])
    else .error .insufficientBalance
  else .error .unauthorized

/-- `Contract::changeOwner`. -/
def changeOwner (c : Contract) (signer : AccountId) (address : AccountId) :
    Except Err (Contract × List Event) :=
  if signer = c.ownerId then
    .ok ({ c with ownerId := address }, [])
  else .error .unauthorized

/-- `Contract::ft_balance_of`. -/
def ft_balance_of (c : Contract) (account_id : AccountId) : Nat :=
  umGetD c.accounts account_id

/-- `Contract::ft_fund_balance_of`. -/
def ft_fund_balance_of (c : Contract) (account_id : String) : Nat :=
  umGetD c.fundAccounts account_id

/-- `Contract::total_users`. -/
def total_users (c : Contract) : Nat :=
  c.accounts.length

/-- `Contract::total_fund_users`. -/
def total_fund_users (c : Contract) : Nat :=
  c.fundAccounts.length

/-- The mutating operations of the deployed contract (besides `new`), with the
signer recorded explicitly. -/
inductive Op where
  | mint (signer : AccountId) (amount : Nat)
  | burn (signer : AccountId) (amount : Nat)
  | transfer (signer : AccountId) (receiver : AccountId) (amount : Nat)
  | toFund (signer : AccountId) (id : String) (amount : Nat)
  | fromFund (signer : AccountId) (id : String) (dest : AccountId) (amount : Nat)
  | chOwner (signer : AccountId) (address : AccountId)
  deriving DecidableEq, Repr

/-- Dispatch an operation. -/
def applyOp (c : Contract) : Op → Except Err (Contract × List Event)
  | .mint s a => mintToken c s a
  | .burn s a => burnToken c s a
  | .transfer s r a => ft_transfer c s r a
  | .toFund s i a => sendToFund c s i a
  | .fromFund s i d a => sendFromFund c s i d a
  | .chOwner s a => changeOwner c s a

/-- One transaction: a failed (aborted) call leaves the persisted state as it
was. -/
def step (c : Contract) (op : Op) : Contract :=
  match applyOp c op with
  | .ok (c', _) => c'
  | .error _ => c

/-- Events of a call result (an aborted call logs nothing). -/
def emittedEvents (r : Except Err (Contract × List Event)) : List Event :=
  match r with
  | .ok (_, ev) => ev
  | .error _ => []

/-- Amount added to the mint tally by one executed transaction. -/
def mintedBy (c : Contract) (op : Op) : Nat :=
  match op, applyOp c op with
  | .mint _ a, .ok _ => a
  | _, _ => 0

/-- Amount added to the burn tally by one executed transaction. -/
def burnedBy (c : Contract) (op : Op) : Nat :=
  match op, applyOp c op with
  | .burn _ a, .ok _ => a
  | _, _ => 0

/-- Run a sequence of transactions from a state, tallying the amounts of the
successful mints and burns. -/
def execOps : Contract → List Op → Contract × Nat × Nat
  | c, [] => (c, 0, 0)
  | c, op :: ops =>
      let r := execOps (step c op) ops
      (r.1, mintedBy c op + r.2.1, burnedBy c op + r.2.2)

/-- Sum of all balances held in the contract: accounts plus fund pools. -/
def supplyOf (c : Contract) : Nat :=
  umSum c.accounts + umSum c.fundAccounts

/-- Sample metadata used by concrete test states. -/
def mdSample : FungibleTokenMetadata :=
  { spec := "ft-1.0.0", name := "Child", symbol := "CHD", icon := none,
    decimals := 8 }

/-- A concrete reachable-shaped state used by witnesses and counterexamples. -/
def cS : Contract :=
  { metadata := mdSample
    fundAccounts := [("pool1", 200)]
    accounts := [("owner", 10), ("bob", 5)]
    canMint := true
    canBurn := true
    ownerId := "owner"
    glueId := "glue" }

/-- Whether a call commits (its `assert!`s all passed). -/
def isSuccess : Except Err (Contract × List Event) → Bool
  | .ok _ => true
  | .error _ => false

/-- A state with minting and burning disabled (both flags are free parameters
of `new`). -/
def cNoFlags : Contract :=
  { metadata := mdSample
    fundAccounts := []
    accounts := [("owner", 100)]
    canMint := false
    canBurn := false
    ownerId := "owner"
    glueId := "glue" }

/-- A state whose owner holds the largest representable `u128` balance. -/
def cMax : Contract :=
  { metadata := mdSample
    fundAccounts := []
    accounts := [("owner", modulus - 1)]
    canMint := true
    canBurn := true
    ownerId := "owner"
    glueId := "glue" }

/-- A state with no account entries at all. -/
def cEmpty : Contract :=
  { metadata := mdSample
    fundAccounts := []
    accounts := []
    canMint := true
    canBurn := true
    ownerId := "owner"
    glueId := "glue" }

/-! ### Association-map lemmas -/

theorem umGet_umInsert_self (m : UMap) (k : String) (v : Nat) :
    umGet (umInsert m k v) k = some v := by
  induction m with
  | nil => simp [umInsert, umGet]
  | cons p rest ih =>
      obtain ⟨k0, v0⟩ := p
      by_cases h : k0 = k
      · simp [umInsert, umGet, h]
      · simp [umInsert, umGet, h, ih]

theorem umGet_umInsert_ne (m : UMap) (k k' : String) (v : Nat) (h : k' ≠ k) :
    umGet (umInsert m k v) k' = umGet m k' := by
  induction m with
  | nil => simp [umInsert, umGet, Ne.symm h]
  | cons p rest ih =>
      obtain ⟨k0, v0⟩ := p
      by_cases h0 : k0 = k
      · subst h0
        simp [umInsert, umGet, Ne.symm h]
      · by_cases h1 : k0 = k'
        · subst h1
          simp [umInsert, umGet, h0, h]
        · simp [umInsert, umGet, h0, h1, ih]

theorem umGetD_umInsert_self (m : UMap) (k : String) (v : Nat) :
    umGetD (umInsert m k v) k = v := by
  simp [umGetD, umGet_umInsert_self]

theorem umGetD_umInsert_ne (m : UMap) (k k' : String) (v : Nat) (h : k' ≠ k) :
    umGetD (umInsert m k v) k' = umGetD m k' := by
  simp [umGetD, umGet_umInsert_ne m k k' v h]

/-- Inserting `v` at `k` changes the balance sum by replacing the first stored
value at `k` (0 when absent) with `v`; stated additively. -/
theorem umSum_umInsert (m : UMap) (k : String) (v : Nat) :
    umSum (umInsert m k v) + umGetD m k = umSum m + v := by
  induction m with
  | nil => simp [umInsert, umSum, umGetD, umGet]
  | cons p rest ih =>
      obtain ⟨k0, v0⟩ := p
      by_cases h : k0 = k
      · simp [umInsert, umSum, umGetD, umGet, h]
        omega
      · simp only [umInsert, if_neg h, umSum, List.map_cons, List.sum_cons,
          umGetD, umGet, if_neg h] at ih ⊢
        omega

/-- Inserting at a present key keeps the entry count; at an absent key it
appends one entry. -/
theorem length_umInsert (m : UMap) (k : String) (v : Nat) :
    (umInsert m k v).length =
      m.length + (if umGet m k = none then 1 else 0) := by
  induction m with
  | nil => simp [umInsert, umGet]
  | cons p rest ih =>
      obtain ⟨k0, v0⟩ := p
      by_cases h : k0 = k
      · simp [umInsert, umGet, h]
      · simp only [umInsert, if_neg h, List.length_cons, umGet, ih]
        omega

/-! ### Effect of one map update on the balance sum -/

/-- A wrapping credit at one key changes the sum by the amount, modulo
`2 ^ 128`. -/
theorem umSum_insert_wrap (m : UMap) (k : String) (a : Nat) :
    umSum (umInsert m k ((umGetD m k + a) % modulus)) ≡ umSum m + a [MOD modulus] := by
  have h := umSum_umInsert m k ((umGetD m k + a) % modulus)
  have h2 : umSum (umInsert m k ((umGetD m k + a) % modulus)) + umGetD m k ≡
      (umSum m + a) + umGetD m k [MOD modulus] := by
    calc umSum (umInsert m k ((umGetD m k + a) % modulus)) + umGetD m k
        = umSum m + ((umGetD m k + a) % modulus) := h
      _ ≡ umSum m + (umGetD m k + a) [MOD modulus] :=
          Nat.ModEq.add_left _ (Nat.mod_modEq _ _)
      _ = (umSum m + a) + umGetD m k := by omega
  exact Nat.ModEq.add_right_cancel' _ h2

/-- A guarded debit at one key lowers the sum by exactly the amount. -/
theorem umSum_insert_sub (m : UMap) (k : String) (a : Nat)
    (h : a ≤ umGetD m k) :
    umSum (umInsert m k (umGetD m k - a)) + a = umSum m := by
  have h2 := umSum_umInsert m k (umGetD m k - a)
  omega

/-! ### Characterizations of the internal balance moves -/

theorem internal_deposit_accounts (c : Contract) (k : AccountId) (a : Nat) :
    (internal_deposit c k a).accounts =
      umInsert c.accounts k ((umGetD c.accounts k + a) % modulus) := rfl

theorem internal_deposit_fundAccounts (c : Contract) (k : AccountId) (a : Nat) :
    (internal_deposit c k a).fundAccounts = c.fundAccounts := rfl

theorem internal_withdraw_ok (c : Contract) (k : AccountId) (a : Nat)
    (h : a ≤ umGetD c.accounts k) :
    internal_withdraw c k a =
      .ok { c with accounts := umInsert c.accounts k (umGetD c.accounts k - a) } := by
  simp only [internal_withdraw]
  rw [if_pos h]

theorem internal_withdraw_err (c : Contract) (k : AccountId) (a : Nat)
    (h : umGetD c.accounts k < a) :
    internal_withdraw c k a = .error .insufficientBalance := by
  simp only [internal_withdraw]
  rw [if_neg (Nat.not_le.mpr h)]

/-- Depositing changes the account sum by the amount, modulo `2 ^ 128`. -/
theorem umSum_internal_deposit (c : Contract) (k : AccountId) (a : Nat) :
    umSum (internal_deposit c k a).accounts ≡ umSum c.accounts + a [MOD modulus] := by
  rw [internal_deposit_accounts]
  exact umSum_insert_wrap c.accounts k a

/-- Depositing changes the total supply by the amount, modulo `2 ^ 128`. -/
theorem supplyOf_internal_deposit (c : Contract) (k : AccountId) (a : Nat) :
    supplyOf (internal_deposit c k a) ≡ supplyOf c + a [MOD modulus] := by
  simp only [supplyOf, internal_deposit_fundAccounts]
  have h := Nat.ModEq.add_right (umSum c.fundAccounts) (umSum_internal_deposit c k a)
  have heq : umSum c.accounts + a + umSum c.fundAccounts =
      umSum c.accounts + umSum c.fundAccounts + a := by omega
  rw [heq] at h
  exact h

/-! ### Branch equations for the public operations -/

theorem mintToken_eq_ok (c : Contract) (s : AccountId) (a : Nat)
    (hm : c.canMint = true) (hs : s = c.ownerId) :
    mintToken c s a = .ok (internal_deposit c c.ownerId a, []) := by
  simp [mintToken, hm, hs]

theorem mintToken_eq_err_disabled (c : Contract) (s : AccountId) (a : Nat)
    (hm : c.canMint = false) :
    mintToken c s a = .error .mintDisabled := by
  simp [mintToken, hm]

theorem mintToken_eq_err_unauth (c : Contract) (s : AccountId) (a : Nat)
    (hm : c.canMint = true) (hs : s ≠ c.ownerId) :
    mintToken c s a = .error .unauthorized := by
  simp [mintToken, hm, hs]

theorem burnToken_eq_ok (c : Contract) (s : AccountId) (a : Nat)
    (hb : c.canBurn = true) (hs : s = c.ownerId)
    (hw : a ≤ umGetD c.accounts c.ownerId) :
    burnToken c s a =
      .ok ({ c with accounts :=
                      umInsert c.accounts c.ownerId
                        (umGetD c.accounts c.ownerId - a) }, []) := by
  simp [burnToken, hb, hs, internal_withdraw_ok c c.ownerId a hw]

theorem burnToken_eq_err_disabled (c : Contract) (s : AccountId) (a : Nat)
    (hb : c.canBurn = false) :
    burnToken c s a = .error .burnDisabled := by
  simp [burnToken, hb]

theorem burnToken_eq_err_unauth (c : Contract) (s : AccountId) (a : Nat)
    (hb : c.canBurn = true) (hs : s ≠ c.ownerId) :
    burnToken c s a = .error .unauthorized := by
  simp [burnToken, hb, hs]

theorem burnToken_eq_err_insufficient (c : Contract) (s : AccountId) (a : Nat)
    (hb : c.canBurn = true) (hs : s = c.ownerId)
    (hw : umGetD c.accounts c.ownerId < a) :
    burnToken c s a = .error .insufficientBalance := by
  simp [burnToken, hb, hs, internal_withdraw_err c c.ownerId a hw]

theorem ft_transfer_eq_ok (c : Contract) (s r : AccountId) (a : Nat)
    (hw : a ≤ umGetD c.accounts s) :
    ft_transfer c s r a =
      .ok (internal_deposit
            { c with accounts := umInsert c.accounts s (umGetD c.accounts s - a) } r a,
        [Event.ftTransfer s r a (some "transfered")]) := by
  simp [ft_transfer, internal_withdraw_ok c s a hw]

theorem ft_transfer_eq_err_insufficient (c : Contract) (s r : AccountId) (a : Nat)
    (hw : umGetD c.accounts s < a) :
    ft_transfer c s r a = .error .insufficientBalance := by
  simp [ft_transfer, internal_withdraw_err c s a hw]

theorem sendToFund_eq_ok (c : Contract) (s : AccountId) (id : String) (a : Nat)
    (hauth : s = c.ownerId ∨ s = c.glueId)
    (hw : a ≤ umGetD c.accounts c.ownerId) :
    sendToFund c s id a =
      .ok ({ c with
          accounts := umInsert c.accounts c.ownerId (umGetD c.accounts c.ownerId - a),
          fundAccounts :=
            umInsert c.fundAccounts id ((umGetD c.fundAccounts id + a) % modulus) },
        []) := by
  simp [sendToFund, hauth, internal_withdraw_ok c c.ownerId a hw]

theorem sendToFund_eq_err_unauth (c : Contract) (s : AccountId) (id : String)
    (a : Nat) (h1 : s ≠ c.ownerId) (h2 : s ≠ c.glueId) :
    sendToFund c s id a = .error .unauthorized := by
  simp [sendToFund, h1, h2]

theorem sendToFund_eq_err_insufficient (c : Contract) (s : AccountId) (id : String)
    (a : Nat) (hauth : s = c.ownerId ∨ s = c.glueId)
    (hw : umGetD c.accounts c.ownerId < a) :
    sendToFund c s id a = .error .insufficientBalance := by
  simp [sendToFund, hauth, internal_withdraw_err c c.ownerId a hw]

theorem sendFromFund_eq_ok (c : Contract) (s : AccountId) (id : String)
    (w : AccountId) (a : Nat) (hauth : s = c.ownerId ∨ s = c.glueId)
    (hw : a ≤ umGetD c.fundAccounts id) :
    sendFromFund c s id w a =
      .ok (internal_deposit
            { c with fundAccounts :=
                umInsert c.fundAccounts id (umGetD c.fundAccounts id - a) } w a,
        [Event.ftTransfer c.ownerId w a (some "transfered")]) := by
  simp [sendFromFund, hauth, hw]

theorem sendFromFund_eq_err_unauth (c : Contract) (s : AccountId) (id : String)
    (w : AccountId) (a : Nat) (h1 : s ≠ c.ownerId) (h2 : s ≠ c.glueId) :
    sendFromFund c s id w a = .error .unauthorized := by
  simp [sendFromFund, h1, h2]

theorem sendFromFund_eq_err_insufficient (c : Contract) (s : AccountId)
    (id : String) (w : AccountId) (a : Nat)
    (hauth : s = c.ownerId ∨ s = c.glueId)
    (hw : umGetD c.fundAccounts id < a) :
    sendFromFund c s id w a = .error .insufficientBalance := by
  simp [sendFromFund, hauth, Nat.not_le.mpr hw]

theorem changeOwner_eq_ok (c : Contract) (s : AccountId) (address : AccountId)
    (hs : s = c.ownerId) :
    changeOwner c s address = .ok ({ c with ownerId := address }, []) := by
  simp [changeOwner, hs]

theorem changeOwner_eq_err_unauth (c : Contract) (s : AccountId)
    (address : AccountId) (hs : s ≠ c.ownerId) :
    changeOwner c s address = .error .unauthorized := by
  simp [changeOwner, hs]

/-! ### Conservation of supply, one step at a time -/

/-- An exact account debit followed by a wrapping account credit leaves the
total supply unchanged modulo `2 ^ 128` (the `ft_transfer` shape). -/
theorem supplyOf_withdraw_deposit (c : Contract) (k r : AccountId) (a : Nat)
    (hw : a ≤ umGetD c.accounts k) :
    supplyOf (internal_deposit
        { c with accounts := umInsert c.accounts k (umGetD c.accounts k - a) } r a) ≡
      supplyOf c [MOD modulus] := by
  have h1 := supplyOf_internal_deposit
    { c with accounts := umInsert c.accounts k (umGetD c.accounts k - a) } r a
  have h2 := umSum_insert_sub c.accounts k a hw
  have h3 : supplyOf { c with accounts := umInsert c.accounts k (umGetD c.accounts k - a) } + a =
      supplyOf c := by
    simp only [supplyOf]
    omega
  have h4 : supplyOf { c with accounts := umInsert c.accounts k (umGetD c.accounts k - a) } + a ≡
      supplyOf c [MOD modulus] := by
    rw [h3]
  exact h1.trans h4

/-- An exact fund debit followed by a wrapping account credit leaves the total
supply unchanged modulo `2 ^ 128` (the `sendFromFund` shape). -/
theorem supplyOf_fundsub_deposit (c : Contract) (id : String) (w : AccountId)
    (a : Nat) (hw : a ≤ umGetD c.fundAccounts id) :
    supplyOf (internal_deposit
        { c with fundAccounts :=
            umInsert c.fundAccounts id (umGetD c.fundAccounts id - a) } w a) ≡
      supplyOf c [MOD modulus] := by
  have h1 := supplyOf_internal_deposit
    { c with fundAccounts := umInsert c.fundAccounts id (umGetD c.fundAccounts id - a) } w a
  have h2 := umSum_insert_sub c.fundAccounts id a hw
  have h3 : supplyOf { c with fundAccounts := umInsert c.fundAccounts id (umGetD c.fundAccounts id - a) } + a = supplyOf c := by
    simp only [supplyOf]
    omega
  have h4 : supplyOf { c with fundAccounts := umInsert c.fundAccounts id (umGetD c.fundAccounts id - a) } + a ≡ supplyOf c [MOD modulus] := by
    rw [h3]
  exact h1.trans h4

/-- One executed transaction changes `sum(accounts) + sum(funds)` by the
minted amount and minus the burned amount, modulo `2 ^ 128`; a failed
transaction changes nothing. -/
theorem step_supply (c : Contract) (op : Op) :
    supplyOf (step c op) + burnedBy c op ≡
      supplyOf c + mintedBy c op [MOD modulus] := by
  cases op with
  | mint s a =>
      cases hm : c.canMint with
      | true =>
          by_cases hs : s = c.ownerId
          · simp only [step, applyOp, mintedBy, burnedBy, mintToken_eq_ok c s a hm hs]
            simpa using supplyOf_internal_deposit c c.ownerId a
          · simp only [step, applyOp, mintedBy, burnedBy,
              mintToken_eq_err_unauth c s a hm hs]
            exact Nat.ModEq.refl _
      | false =>
          simp only [step, applyOp, mintedBy, burnedBy,
            mintToken_eq_err_disabled c s a hm]
          exact Nat.ModEq.refl _
  | burn s a =>
      cases hb : c.canBurn with
      | true =>
          by_cases hs : s = c.ownerId
          · by_cases hw : a ≤ umGetD c.accounts c.ownerId
            · simp only [step, applyOp, mintedBy, burnedBy,
                burnToken_eq_ok c s a hb hs hw]
              have h2 := umSum_insert_sub c.accounts c.ownerId a hw
              have heq : supplyOf { c with accounts := umInsert c.accounts c.ownerId (umGetD c.accounts c.ownerId - a) } + a = supplyOf c + 0 := by
                simp only [supplyOf]
                omega
              rw [heq]
            · simp only [step, applyOp, mintedBy, burnedBy,
                burnToken_eq_err_insufficient c s a hb hs (Nat.not_le.mp hw)]
              exact Nat.ModEq.refl _
          · simp only [step, applyOp, mintedBy, burnedBy,
              burnToken_eq_err_unauth c s a hb hs]
            exact Nat.ModEq.refl _
      | false =>
          simp only [step, applyOp, mintedBy, burnedBy,
            burnToken_eq_err_disabled c s a hb]
          exact Nat.ModEq.refl _
  | transfer s r a =>
      by_cases hw : a ≤ umGetD c.accounts s
      · simp only [step, applyOp, mintedBy, burnedBy, ft_transfer_eq_ok c s r a hw]
        simpa using supplyOf_withdraw_deposit c s r a hw
      · simp only [step, applyOp, mintedBy, burnedBy,
          ft_transfer_eq_err_insufficient c s r a (Nat.not_le.mp hw)]
        exact Nat.ModEq.refl _
  | toFund s id a =>
      by_cases hauth : s = c.ownerId ∨ s = c.glueId
      · by_cases hw : a ≤ umGetD c.accounts c.ownerId
        · simp only [step, applyOp, mintedBy, burnedBy,
            sendToFund_eq_ok c s id a hauth hw]
          have hf := umSum_insert_wrap c.fundAccounts id a
          have h2 := umSum_insert_sub c.accounts c.ownerId a hw
          simp only [supplyOf, Nat.add_zero]
          calc umSum (umInsert c.accounts c.ownerId (umGetD c.accounts c.ownerId - a)) +
                umSum (umInsert c.fundAccounts id ((umGetD c.fundAccounts id + a) % modulus))
              ≡ umSum (umInsert c.accounts c.ownerId (umGetD c.accounts c.ownerId - a)) +
                (umSum c.fundAccounts + a) [MOD modulus] := Nat.ModEq.add_left _ hf
            _ = umSum c.accounts + umSum c.fundAccounts := by omega
        · simp only [step, applyOp, mintedBy, burnedBy,
            sendToFund_eq_err_insufficient c s id a hauth (Nat.not_le.mp hw)]
          exact Nat.ModEq.refl _
      · push_neg at hauth
        simp only [step, applyOp, mintedBy, burnedBy,
          sendToFund_eq_err_unauth c s id a hauth.1 hauth.2]
        exact Nat.ModEq.refl _
  | fromFund s id d a =>
      by_cases hauth : s = c.ownerId ∨ s = c.glueId
      · by_cases hw : a ≤ umGetD c.fundAccounts id
        · simp only [step, applyOp, mintedBy, burnedBy,
            sendFromFund_eq_ok c s id d a hauth hw]
          simpa using supplyOf_fundsub_deposit c id d a hw
        · simp only [step, applyOp, mintedBy, burnedBy,
            sendFromFund_eq_err_insufficient c s id d a hauth (Nat.not_le.mp hw)]
          exact Nat.ModEq.refl _
      · push_neg at hauth
        simp only [step, applyOp, mintedBy, burnedBy,
          sendFromFund_eq_err_unauth c s id d a hauth.1 hauth.2]
        exact Nat.ModEq.refl _
  | chOwner s ad =>
      by_cases hs : s = c.ownerId
      · simp only [step, applyOp, mintedBy, burnedBy, changeOwner_eq_ok c s ad hs]
        simp only [supplyOf]
        exact Nat.ModEq.refl _
      · simp only [step, applyOp, mintedBy, burnedBy,
          changeOwner_eq_err_unauth c s ad hs]
        exact Nat.ModEq.refl _

/-- An aborted transaction leaves the persisted state untouched. -/
theorem step_of_error (c : Contract) (op : Op) (e : Err)
    (h : applyOp c op = .error e) : step c op = c := by
  simp [step, h]

/-- No transaction ever changes the metadata, the mint/burn flags or the glue
identity, and the owner field changes exactly when the current owner runs
`changeOwner`. -/
theorem step_fields (c : Contract) (op : Op) :
    (step c op).metadata = c.metadata ∧
    (step c op).canMint = c.canMint ∧
    (step c op).canBurn = c.canBurn ∧
    (step c op).glueId = c.glueId ∧
    (step c op).ownerId =
      (match op with
       | Op.chOwner s' ad' => if s' = c.ownerId then ad' else c.ownerId
       | _ => c.ownerId) := by
  cases op with
  | mint s a =>
      cases hm : c.canMint with
      | true =>
          by_cases hs : s = c.ownerId
          · simp [step, applyOp, mintToken_eq_ok c s a hm hs, internal_deposit, hm]
          · simp [step, applyOp, mintToken_eq_err_unauth c s a hm hs, hm]
      | false =>
          simp [step, applyOp, mintToken_eq_err_disabled c s a hm, hm]
  | burn s a =>
      cases hb : c.canBurn with
      | true =>
          by_cases hs : s = c.ownerId
          · by_cases hw : a ≤ umGetD c.accounts c.ownerId
            · simp [step, applyOp, burnToken_eq_ok c s a hb hs hw, hb]
            · simp [step, applyOp,
                burnToken_eq_err_insufficient c s a hb hs (Nat.not_le.mp hw), hb]
          · simp [step, applyOp, burnToken_eq_err_unauth c s a hb hs, hb]
      | false =>
          simp [step, applyOp, burnToken_eq_err_disabled c s a hb, hb]
  | transfer s r a =>
      by_cases hw : a ≤ umGetD c.accounts s
      · simp [step, applyOp, ft_transfer_eq_ok c s r a hw, internal_deposit]
      · simp [step, applyOp,
          ft_transfer_eq_err_insufficient c s r a (Nat.not_le.mp hw)]
  | toFund s id a =>
      by_cases hauth : s = c.ownerId ∨ s = c.glueId
      · by_cases hw : a ≤ umGetD c.accounts c.ownerId
        · simp [step, applyOp, sendToFund_eq_ok c s id a hauth hw]
        · simp [step, applyOp,
            sendToFund_eq_err_insufficient c s id a hauth (Nat.not_le.mp hw)]
      · push_neg at hauth
        simp [step, applyOp, sendToFund_eq_err_unauth c s id a hauth.1 hauth.2]
  | fromFund s id d a =>
      by_cases hauth : s = c.ownerId ∨ s = c.glueId
      · by_cases hw : a ≤ umGetD c.fundAccounts id
        · simp [step, applyOp, sendFromFund_eq_ok c s id d a hauth hw,
            internal_deposit]
        · simp [step, applyOp,
            sendFromFund_eq_err_insufficient c s id d a hauth (Nat.not_le.mp hw)]
      · push_neg at hauth
        simp [step, applyOp, sendFromFund_eq_err_unauth c s id d a hauth.1 hauth.2]
  | chOwner s ad =>
      by_cases hs : s = c.ownerId
      · subst hs
        simp [step, applyOp, changeOwner_eq_ok c c.ownerId ad rfl]
      · simp [step, applyOp, changeOwner_eq_err_unauth c s ad hs, hs]

/-- `changeOwner` never touches either balance map. -/
theorem step_chOwner_balances (c : Contract) (s ad : AccountId) :
    (step c (Op.chOwner s ad)).accounts = c.accounts ∧
    (step c (Op.chOwner s ad)).fundAccounts = c.fundAccounts := by
  by_cases hs : s = c.ownerId
  · simp [step, applyOp, changeOwner_eq_ok c s ad hs]
  · simp [step, applyOp, changeOwner_eq_err_unauth c s ad hs]

/-- Conservation along a whole transaction sequence: the final supply plus the
burn tally is congruent to the initial supply plus the mint tally. -/
theorem execOps_supply (ops : List Op) (c : Contract) :
    supplyOf (execOps c ops).1 + (execOps c ops).2.2 ≡
      supplyOf c + (execOps c ops).2.1 [MOD modulus] := by
  induction ops generalizing c with
  | nil =>
      simp only [execOps]
      exact Nat.ModEq.refl _
  | cons op ops ih =>
      simp only [execOps]
      have h1 := Nat.ModEq.add_right (burnedBy c op) (ih (step c op))
      have h2 := Nat.ModEq.add_right ((execOps (step c op) ops).2.1) (step_supply c op)
      calc supplyOf (execOps (step c op) ops).1 +
            (burnedBy c op + (execOps (step c op) ops).2.2)
          = supplyOf (execOps (step c op) ops).1 +
            (execOps (step c op) ops).2.2 + burnedBy c op := by omega
        _ ≡ supplyOf (step c op) + (execOps (step c op) ops).2.1 +
            burnedBy c op [MOD modulus] := h1
        _ = supplyOf (step c op) + burnedBy c op +
            (execOps (step c op) ops).2.1 := by omega
        _ ≡ supplyOf c + mintedBy c op +
            (execOps (step c op) ops).2.1 [MOD modulus] := h2
        _ = supplyOf c + (mintedBy c op + (execOps (step c op) ops).2.1) := by omega

/-! ### Claim theorems -/

/-- C1, counterexample. The claim asserts exact conservation over the
integers: after every operation, `sum(accounts) + sum(funds)` equals the
initial totalSupply plus all amounts minted minus all amounts burned. Starting
from an initialized ledger whose total supply is `2 ^ 128 - 1` (the largest
`u128`), a single owner mint of 1 wraps the owner balance to 0, while
`initial + minted - burned = 2 ^ 128`; the equation fails. -/
theorem C1_counterexample :
    ¬ (supplyOf (execOps (new "owner" (modulus - 1) mdSample true true "glue").1
          [Op.mint "owner" 1]).1 =
        (modulus - 1) +
          (execOps (new "owner" (modulus - 1) mdSample true true "glue").1
            [Op.mint "owner" 1]).2.1 -
          (execOps (new "owner" (modulus - 1) mdSample true true "glue").1
            [Op.mint "owner" 1]).2.2) := by
  decide

/-- C1, amended: conservation of supply holds modulo `2 ^ 128` (the `u128`
balance width). Starting from an initialized ledger, for every sequence of
operations (mint, burn, transfer, sendToFund, sendFromFund, and also
changeOwner), the sum of all account balances plus the sum of all fund-pool
balances, plus the total burned, is congruent modulo `2 ^ 128` to the initial
totalSupply plus the total minted. Exact equality holds whenever no `u128`
credit wraps. Since every sequence is quantified, the invariant holds after
every operation (every prefix is itself a sequence). -/
theorem C1_conservation (signer : AccountId) (total_supply : Nat)
    (md : FungibleTokenMetadata) (can_mint can_burn : Bool) (glue : AccountId)
    (ops : List Op) :
    supplyOf (execOps (new signer total_supply md can_mint can_burn glue).1 ops).1 +
        (execOps (new signer total_supply md can_mint can_burn glue).1 ops).2.2 ≡
      total_supply +
        (execOps (new signer total_supply md can_mint can_burn glue).1 ops).2.1
      [MOD modulus] := by
  have h := execOps_supply ops (new signer total_supply md can_mint can_burn glue).1
  have h0 : supplyOf (new signer total_supply md can_mint can_burn glue).1 =
      total_supply := by
    simp [new, supplyOf, umSum, umInsert]
  rw [h0] at h
  exact h

/-- C7, counterexample. The claim asserts that `credit` stores exactly the
previous balance plus the amount even when the true sum exceeds `2 ^ 128 - 1`.
Depositing 1 on a balance of `2 ^ 128 - 1` stores 0 (u128 wrap-around), not
`2 ^ 128`. -/
theorem C7_counterexample :
    ft_balance_of (internal_deposit cMax "owner" 1) "owner" ≠
      ft_balance_of cMax "owner" + 1 := by
  decide

/-- C7, amended: `internal_deposit` never fails (it is total by construction)
and sets the stored balance of the key to the previous balance (0 if the key
was absent) plus the amount, reduced modulo `2 ^ 128` (u128 wrap-around);
every other account's balance is untouched. -/
theorem C7_credit (c : Contract) (k : AccountId) (a : Nat) :
    ft_balance_of (internal_deposit c k a) k = (ft_balance_of c k + a) % modulus ∧
    (∀ j, j ≠ k → ft_balance_of (internal_deposit c k a) j = ft_balance_of c j) := by
  constructor
  · simp only [ft_balance_of, internal_deposit_accounts]
    exact umGetD_umInsert_self c.accounts k ((umGetD c.accounts k + a) % modulus)
  · intro j hj
    simp only [ft_balance_of, internal_deposit_accounts]
    exact umGetD_umInsert_ne c.accounts k j _ hj

/-- C7 witness: depositing 3 into absent account `alice` on the sample state
stores `(0 + 3) % 2 ^ 128 = 3` and leaves `bob` at 5. -/
theorem C7_credit_witness :
    ft_balance_of (internal_deposit cS "alice" 3) "alice" = 3 ∧
    ft_balance_of (internal_deposit cS "alice" 3) "bob" = 5 :=
  ⟨(C7_credit cS "alice" 3).1, (C7_credit cS "alice" 3).2 "bob" (by decide)⟩

/-- C2: debit atomicity. For any account key, a debit (`internal_withdraw`)
with the stored balance below the amount fails with InsufficientBalance, and
each debiting operation that reaches its debit (burn, transfer, sendToFund on
the owner account; sendFromFund on the fund pool) then aborts with
InsufficientBalance and leaves the whole state unchanged; otherwise the debit
subtracts exactly the amount (balances are `Nat`, so none is ever negative). -/
theorem C2_debit_atomicity (c : Contract) (k s r : AccountId) (id : String)
    (a : Nat) :
    (umGetD c.accounts k < a →
      internal_withdraw c k a = .error .insufficientBalance) ∧
    (a ≤ umGetD c.accounts k →
      internal_withdraw c k a =
        .ok { c with accounts := umInsert c.accounts k (umGetD c.accounts k - a) } ∧
      umGetD (umInsert c.accounts k (umGetD c.accounts k - a)) k =
        umGetD c.accounts k - a) ∧
    (c.canBurn = true → s = c.ownerId → umGetD c.accounts c.ownerId < a →
      burnToken c s a = .error .insufficientBalance ∧ step c (Op.burn s a) = c) ∧
    (umGetD c.accounts s < a →
      ft_transfer c s r a = .error .insufficientBalance ∧
      step c (Op.transfer s r a) = c) ∧
    ((s = c.ownerId ∨ s = c.glueId) → umGetD c.accounts c.ownerId < a →
      sendToFund c s id a = .error .insufficientBalance ∧
      step c (Op.toFund s id a) = c) ∧
    ((s = c.ownerId ∨ s = c.glueId) → umGetD c.fundAccounts id < a →
      sendFromFund c s id r a = .error .insufficientBalance ∧
      step c (Op.fromFund s id r a) = c) ∧
    ((s = c.ownerId ∨ s = c.glueId) → a ≤ umGetD c.fundAccounts id →
      ft_fund_balance_of (step c (Op.fromFund s id r a)) id =
        umGetD c.fundAccounts id - a) := by
  refine ⟨?_, ?_, ?_, ?_, ?_, ?_, ?_⟩
  · intro h
    exact internal_withdraw_err c k a h
  · intro h
    exact ⟨internal_withdraw_ok c k a h, umGetD_umInsert_self _ _ _⟩
  · intro hb hs h
    have he := burnToken_eq_err_insufficient c s a hb hs h
    exact ⟨he, step_of_error c _ _ he⟩
  · intro h
    have he := ft_transfer_eq_err_insufficient c s r a h
    exact ⟨he, step_of_error c _ _ he⟩
  · intro hauth h
    have he := sendToFund_eq_err_insufficient c s id a hauth h
    exact ⟨he, step_of_error c _ _ he⟩
  · intro hauth h
    have he := sendFromFund_eq_err_insufficient c s id r a hauth h
    exact ⟨he, step_of_error c _ _ he⟩
  · intro hauth h
    simp only [step, applyOp, sendFromFund_eq_ok c s id r a hauth h,
      ft_fund_balance_of, internal_deposit_fundAccounts]
    exact umGetD_umInsert_self _ _ _

/-- C2 witness: on the sample state the owner holds 10, so an owner burn of 50
aborts with InsufficientBalance and changes nothing, while an owner burn of 4
debits exactly 4. -/
theorem C2_debit_atomicity_witness :
    (burnToken cS "owner" 50 = .error .insufficientBalance ∧
      step cS (Op.burn "owner" 50) = cS) ∧
    ft_fund_balance_of (step cS (Op.fromFund "owner" "pool1" "carol" 150)) "pool1" = 50 :=
  ⟨(C2_debit_atomicity cS "owner" "owner" "carol" "pool1" 50).2.2.1
      (by decide) (by decide) (by decide),
    (C2_debit_atomicity cS "owner" "owner" "carol" "pool1" 150).2.2.2.2.2.2
      (Or.inl (by decide)) (by decide)⟩

/-- C3, counterexample. The claim says mint fails with Unauthorized for every
non-owner caller; but `mintToken` asserts the `canMint` flag before the owner
check, so on a ledger initialized with `can_mint = false` a non-owner call
fails with MintDisabled instead. -/
theorem C3_counterexample :
    "alice" ≠ cNoFlags.ownerId ∧
    mintToken cNoFlags "alice" 1 ≠ .error .unauthorized ∧
    mintToken cNoFlags "alice" 1 = .error .mintDisabled := by
  refine ⟨by decide, by decide, by decide⟩

/-- C3, amended: a non-owner caller can never mint, burn or change the owner,
and no state changes: mint and burn fail with Unauthorized when the respective
flag is set and with MintDisabled/BurnDisabled when it is unset (the flag is
asserted first); changeOwner fails with Unauthorized. A caller that is neither
the owner nor the glue identity cannot run sendToFund or sendFromFund: both
fail with Unauthorized and leave the state unchanged. -/
theorem C3_authorization (c : Contract) (s : AccountId) (a : Nat) (id : String)
    (d newOwner : AccountId) :
    (s ≠ c.ownerId →
      mintToken c s a =
        .error (if c.canMint then Err.unauthorized else Err.mintDisabled) ∧
      step c (Op.mint s a) = c ∧
      burnToken c s a =
        .error (if c.canBurn then Err.unauthorized else Err.burnDisabled) ∧
      step c (Op.burn s a) = c ∧
      changeOwner c s newOwner = .error .unauthorized ∧
      step c (Op.chOwner s newOwner) = c) ∧
    (s ≠ c.ownerId → s ≠ c.glueId →
      sendToFund c s id a = .error .unauthorized ∧
      step c (Op.toFund s id a) = c ∧
      sendFromFund c s id d a = .error .unauthorized ∧
      step c (Op.fromFund s id d a) = c) := by
  constructor
  · intro hs
    have hmint : mintToken c s a =
        .error (if c.canMint then Err.unauthorized else Err.mintDisabled) := by
      cases hm : c.canMint with
      | true => simp [mintToken_eq_err_unauth c s a hm hs]
      | false => simp [mintToken_eq_err_disabled c s a hm]
    have hburn : burnToken c s a =
        .error (if c.canBurn then Err.unauthorized else Err.burnDisabled) := by
      cases hb : c.canBurn with
      | true => simp [burnToken_eq_err_unauth c s a hb hs]
      | false => simp [burnToken_eq_err_disabled c s a hb]
    have hch := changeOwner_eq_err_unauth c s newOwner hs
    exact ⟨hmint,
      step_of_error c (Op.mint s a)
        (if c.canMint then Err.unauthorized else Err.mintDisabled) hmint,
      hburn,
      step_of_error c (Op.burn s a)
        (if c.canBurn then Err.unauthorized else Err.burnDisabled) hburn,
      hch, step_of_error c (Op.chOwner s newOwner) Err.unauthorized hch⟩
  · intro h1 h2
    have hto := sendToFund_eq_err_unauth c s id a h1 h2
    have hfrom := sendFromFund_eq_err_unauth c s id d a h1 h2
    exact ⟨hto, step_of_error c _ _ hto, hfrom, step_of_error c _ _ hfrom⟩

/-- C3 witness: on the sample state (both flags set), the non-owner caller
`alice` gets Unauthorized from mint and from sendToFund, with no state
change. -/
theorem C3_authorization_witness :
    mintToken cS "alice" 1 = .error .unauthorized ∧
    step cS (Op.mint "alice" 1) = cS ∧
    sendToFund cS "alice" "pool1" 1 = .error .unauthorized := by
  have h := C3_authorization cS "alice" 1 "pool1" "carol" "newowner"
  have ha := h.1 (by decide)
  have hb := h.2 (by decide) (by decide)
  exact ⟨ha.1, ha.2.1, hb.1⟩

/-- C4: `sendToFund(poolId, amount)`, called by the owner or the glue
identity, debits the owner's account — not the caller's: every account other
than the owner's keeps its balance, in particular a glue caller's — failing
with InsufficientBalance when the owner's balance is below the amount even
when glue is the caller, and credits the named fund pool by the amount (the
credit is a u128 addition, i.e. modulo `2 ^ 128`; for in-range sums this is
plain addition, see C7). No event is emitted. -/
theorem C4_sendToFund (c : Contract) (s : AccountId) (id : String) (a : Nat)
    (hauth : s = c.ownerId ∨ s = c.glueId) :
    (umGetD c.accounts c.ownerId < a →
      sendToFund c s id a = .error .insufficientBalance ∧
      step c (Op.toFund s id a) = c) ∧
    (a ≤ umGetD c.accounts c.ownerId →
      sendToFund c s id a = .ok (step c (Op.toFund s id a), []) ∧
      ft_balance_of (step c (Op.toFund s id a)) c.ownerId =
        umGetD c.accounts c.ownerId - a ∧
      ft_fund_balance_of (step c (Op.toFund s id a)) id =
        (umGetD c.fundAccounts id + a) % modulus ∧
      (∀ k, k ≠ c.ownerId →
        ft_balance_of (step c (Op.toFund s id a)) k = ft_balance_of c k) ∧
      (∀ j, j ≠ id →
        ft_fund_balance_of (step c (Op.toFund s id a)) j =
          ft_fund_balance_of c j)) := by
  constructor
  · intro h
    have he := sendToFund_eq_err_insufficient c s id a hauth h
    exact ⟨he, step_of_error c _ _ he⟩
  · intro h
    have hok := sendToFund_eq_ok c s id a hauth h
    have hstep : step c (Op.toFund s id a) =
        { c with
          accounts := umInsert c.accounts c.ownerId (umGetD c.accounts c.ownerId - a),
          fundAccounts :=
            umInsert c.fundAccounts id ((umGetD c.fundAccounts id + a) % modulus) } := by
      simp [step, applyOp, hok]
    refine ⟨?_, ?_, ?_, ?_, ?_⟩
    · rw [hstep]
      exact hok
    · rw [hstep]
      exact umGetD_umInsert_self _ _ _
    · rw [hstep]
      exact umGetD_umInsert_self _ _ _
    · intro k hk
      rw [hstep]
      exact umGetD_umInsert_ne _ _ _ _ hk
    · intro j hj
      rw [hstep]
      exact umGetD_umInsert_ne _ _ _ _ hj

/-- C4 witness: on the sample state the glue identity sends 4 to pool `pool2`:
the owner's balance drops from 10 to 6 (the glue caller holds no account and
is not debited), the pool holds 4, and `bob` keeps 5. -/
theorem C4_sendToFund_witness :
    sendToFund cS "glue" "pool2" 4 = .ok (step cS (Op.toFund "glue" "pool2" 4), []) ∧
    ft_balance_of (step cS (Op.toFund "glue" "pool2" 4)) "owner" = 6 ∧
    ft_fund_balance_of (step cS (Op.toFund "glue" "pool2" 4)) "pool2" = 4 ∧
    ft_balance_of (step cS (Op.toFund "glue" "pool2" 4)) "bob" = 5 := by
  have h := (C4_sendToFund cS "glue" "pool2" 4 (Or.inr (by decide))).2 (by decide)
  exact ⟨h.1, h.2.1, h.2.2.1, by
    have hb := h.2.2.2.1 "bob" (by decide)
    simpa using hb⟩

/-- C5, counterexample. The claim says the Transfer event carries the memo
"transferred"; the source writes `memo: Some("transfered")` (one `r`), so the
emitted event differs from the claimed one. -/
theorem C5_counterexample :
    emittedEvents (sendFromFund cS "owner" "pool1" "carol" 150) ≠
      [Event.ftTransfer "owner" "carol" 150 (some "transferred")] ∧
    emittedEvents (sendFromFund cS "owner" "pool1" "carol" 150) =
      [Event.ftTransfer "owner" "carol" 150 (some "transfered")] := by
  exact ⟨by decide, by decide⟩

/-- C5, amended: `sendFromFund(poolId, destination, amount)`, called by the
owner or the glue identity, debits the fund pool by the amount (failing with
InsufficientBalance and changing nothing when the pool balance is below the
amount), credits the destination account by the amount (u128 addition, modulo
`2 ^ 128`), and emits a Transfer event whose from-field is the owner identity
regardless of the pool origin, whose to-field is the destination, with the
given amount and the memo "transfered" (sic, as spelled in the source). -/
theorem C5_sendFromFund (c : Contract) (s : AccountId) (id : String)
    (w : AccountId) (a : Nat) (hauth : s = c.ownerId ∨ s = c.glueId) :
    (umGetD c.fundAccounts id < a →
      sendFromFund c s id w a = .error .insufficientBalance ∧
      step c (Op.fromFund s id w a) = c) ∧
    (a ≤ umGetD c.fundAccounts id →
      sendFromFund c s id w a =
        .ok (step c (Op.fromFund s id w a),
          [Event.ftTransfer c.ownerId w a (some "transfered")]) ∧
      ft_fund_balance_of (step c (Op.fromFund s id w a)) id =
        umGetD c.fundAccounts id - a ∧
      ft_balance_of (step c (Op.fromFund s id w a)) w =
        (umGetD c.accounts w + a) % modulus ∧
      (∀ k, k ≠ w →
        ft_balance_of (step c (Op.fromFund s id w a)) k = ft_balance_of c k) ∧
      (∀ j, j ≠ id →
        ft_fund_balance_of (step c (Op.fromFund s id w a)) j =
          ft_fund_balance_of c j)) := by
  constructor
  · intro h
    have he := sendFromFund_eq_err_insufficient c s id w a hauth h
    exact ⟨he, step_of_error c _ _ he⟩
  · intro h
    have hok := sendFromFund_eq_ok c s id w a hauth h
    have hstep : step c (Op.fromFund s id w a) =
        internal_deposit
          { c with fundAccounts :=
              umInsert c.fundAccounts id (umGetD c.fundAccounts id - a) } w a := by
      simp [step, applyOp, hok]
    refine ⟨?_, ?_, ?_, ?_, ?_⟩
    · rw [hstep]
      exact hok
    · rw [hstep]
      simp only [ft_fund_balance_of, internal_deposit_fundAccounts]
      exact umGetD_umInsert_self _ _ _
    · rw [hstep]
      simp only [ft_balance_of, internal_deposit_accounts]
      exact umGetD_umInsert_self _ _ _
    · intro k hk
      rw [hstep]
      simp only [ft_balance_of, internal_deposit_accounts]
      exact umGetD_umInsert_ne _ _ _ _ hk
    · intro j hj
      rw [hstep]
      simp only [ft_fund_balance_of, internal_deposit_fundAccounts]
      exact umGetD_umInsert_ne _ _ _ _ hj

/-- C5 witness: the owner claims 150 from `pool1` (balance 200) to `carol`:
the pool drops to 50, `carol` receives 150, and the event names the owner as
the sender with memo "transfered". -/
theorem C5_sendFromFund_witness :
    sendFromFund cS "owner" "pool1" "carol" 150 =
      .ok (step cS (Op.fromFund "owner" "pool1" "carol" 150),
        [Event.ftTransfer "owner" "carol" 150 (some "transfered")]) ∧
    ft_fund_balance_of (step cS (Op.fromFund "owner" "pool1" "carol" 150)) "pool1" = 50 ∧
    ft_balance_of (step cS (Op.fromFund "owner" "pool1" "carol" 150)) "carol" = 150 := by
  have h := (C5_sendFromFund cS "owner" "pool1" "carol" 150 (Or.inl (by decide))).2
    (by decide)
  exact ⟨h.1, h.2.1, h.2.2.1⟩

/-- C6, counterexample. The claim says every successful state-mutating
operation emits at least one event; a successful owner mint emits none
(the source's `mintToken` never calls `.emit()`). -/
theorem C6_counterexample :
    mintToken cS "owner" 5 = .ok (internal_deposit cS "owner" 5, []) ∧
    emittedEvents (mintToken cS "owner" 5) = [] := by
  exact ⟨by decide, by decide⟩

/-- C6, amended: of the state-mutating operations, exactly `new` (one FtMint),
`ft_transfer` and `sendFromFund` (one FtTransfer each) emit an event after
their mutation; successful `mintToken`, `burnToken`, `sendToFund` and
`changeOwner` emit none. -/
theorem C6_events (c : Contract) (s r : AccountId) (id : String)
    (d newOwner : AccountId) (a ts : Nat) (md : FungibleTokenMetadata)
    (cm cb : Bool) (g : AccountId) :
    (new s ts md cm cb g).2 =
      [Event.ftMint s ts (some "Initial tokens supply is minted")] ∧
    (∀ c' ev, ft_transfer c s r a = .ok (c', ev) →
      ev = [Event.ftTransfer s r a (some "transfered")]) ∧
    (∀ c' ev, sendFromFund c s id d a = .ok (c', ev) →
      ev = [Event.ftTransfer c.ownerId d a (some "transfered")]) ∧
    (∀ c' ev, mintToken c s a = .ok (c', ev) → ev = []) ∧
    (∀ c' ev, burnToken c s a = .ok (c', ev) → ev = []) ∧
    (∀ c' ev, sendToFund c s id a = .ok (c', ev) → ev = []) ∧
    (∀ c' ev, changeOwner c s newOwner = .ok (c', ev) → ev = []) := by
  refine ⟨rfl, ?_, ?_, ?_, ?_, ?_, ?_⟩
  · intro c' ev h
    by_cases hw : a ≤ umGetD c.accounts s
    · rw [ft_transfer_eq_ok c s r a hw] at h
      simp only [Except.ok.injEq, Prod.mk.injEq] at h
      exact h.2.symm
    · rw [ft_transfer_eq_err_insufficient c s r a (Nat.not_le.mp hw)] at h
      cases h
  · intro c' ev h
    by_cases hauth : s = c.ownerId ∨ s = c.glueId
    · by_cases hw : a ≤ umGetD c.fundAccounts id
      · rw [sendFromFund_eq_ok c s id d a hauth hw] at h
        simp only [Except.ok.injEq, Prod.mk.injEq] at h
        exact h.2.symm
      · rw [sendFromFund_eq_err_insufficient c s id d a hauth (Nat.not_le.mp hw)] at h
        cases h
    · push_neg at hauth
      rw [sendFromFund_eq_err_unauth c s id d a hauth.1 hauth.2] at h
      cases h
  · intro c' ev h
    cases hm : c.canMint with
    | true =>
        by_cases hs : s = c.ownerId
        · rw [mintToken_eq_ok c s a hm hs] at h
          simp only [Except.ok.injEq, Prod.mk.injEq] at h
          exact h.2.symm
        · rw [mintToken_eq_err_unauth c s a hm hs] at h
          cases h
    | false =>
        rw [mintToken_eq_err_disabled c s a hm] at h
        cases h
  · intro c' ev h
    cases hb : c.canBurn with
    | true =>
        by_cases hs : s = c.ownerId
        · by_cases hw : a ≤ umGetD c.accounts c.ownerId
          · rw [burnToken_eq_ok c s a hb hs hw] at h
            simp only [Except.ok.injEq, Prod.mk.injEq] at h
            exact h.2.symm
          · rw [burnToken_eq_err_insufficient c s a hb hs (Nat.not_le.mp hw)] at h
            cases h
        · rw [burnToken_eq_err_unauth c s a hb hs] at h
          cases h
    | false =>
        rw [burnToken_eq_err_disabled c s a hb] at h
        cases h
  · intro c' ev h
    by_cases hauth : s = c.ownerId ∨ s = c.glueId
    · by_cases hw : a ≤ umGetD c.accounts c.ownerId
      · rw [sendToFund_eq_ok c s id a hauth hw] at h
        simp only [Except.ok.injEq, Prod.mk.injEq] at h
        exact h.2.symm
      · rw [sendToFund_eq_err_insufficient c s id a hauth (Nat.not_le.mp hw)] at h
        cases h
    · push_neg at hauth
      rw [sendToFund_eq_err_unauth c s id a hauth.1 hauth.2] at h
      cases h
  · intro c' ev h
    by_cases hs : s = c.ownerId
    · rw [changeOwner_eq_ok c s newOwner hs] at h
      simp only [Except.ok.injEq, Prod.mk.injEq] at h
      exact h.2.symm
    · rw [changeOwner_eq_err_unauth c s newOwner hs] at h
      cases h

/-- C6 witness: a successful transfer on the sample state emits exactly one
FtTransfer event. -/
theorem C6_events_witness :
    ft_transfer cS "owner" "bob" 2 =
      .ok ({ cS with accounts := [("owner", 8), ("bob", 7)] },
        [Event.ftTransfer "owner" "bob" 2 (some "transfered")]) ∧
    [Event.ftTransfer "owner" "bob" 2 (some "transfered")] =
      [Event.ftTransfer "owner" "bob" 2 (some "transfered")] :=
  ⟨by decide,
    (C6_events cS "owner" "bob" "pool1" "carol" "newowner" 2 7 mdSample true true
        "glue").2.1
      { cS with accounts := [("owner", 8), ("bob", 7)] }
      [Event.ftTransfer "owner" "bob" 2 (some "transfered")] (by decide)⟩

/-- C8: self-transfer. For every account and every amount not exceeding that
account's (u128, hence `< 2 ^ 128`) balance, `ft_transfer` to the caller
itself succeeds, leaves every account balance, the fund map and hence the
total supply unchanged, and still emits a Transfer event. -/
theorem C8_self_transfer (c : Contract) (s : AccountId) (a : Nat)
    (hle : a ≤ umGetD c.accounts s) (hlt : umGetD c.accounts s < modulus) :
    isSuccess (ft_transfer c s s a) = true ∧
    emittedEvents (ft_transfer c s s a) =
      [Event.ftTransfer s s a (some "transfered")] ∧
    (∀ k, ft_balance_of (step c (Op.transfer s s a)) k = ft_balance_of c k) ∧
    supplyOf (step c (Op.transfer s s a)) = supplyOf c := by
  have hok := ft_transfer_eq_ok c s s a hle
  have hsub : umGetD c.accounts s - a + a = umGetD c.accounts s :=
    Nat.sub_add_cancel hle
  have hstep : step c (Op.transfer s s a) =
      internal_deposit
        { c with accounts := umInsert c.accounts s (umGetD c.accounts s - a) } s a := by
    simp [step, applyOp, hok]
  have hval : (umGetD (umInsert c.accounts s (umGetD c.accounts s - a)) s + a) %
      modulus = umGetD c.accounts s := by
    rw [umGetD_umInsert_self, hsub, Nat.mod_eq_of_lt hlt]
  have hacc : (step c (Op.transfer s s a)).accounts =
      umInsert (umInsert c.accounts s (umGetD c.accounts s - a)) s
        (umGetD c.accounts s) := by
    rw [hstep]
    show umInsert (umInsert c.accounts s (umGetD c.accounts s - a)) s
        ((umGetD (umInsert c.accounts s (umGetD c.accounts s - a)) s + a) %
          modulus) =
      umInsert (umInsert c.accounts s (umGetD c.accounts s - a)) s
        (umGetD c.accounts s)
    rw [hval]
  have hfund : (step c (Op.transfer s s a)).fundAccounts = c.fundAccounts := by
    rw [hstep]
    rfl
  refine ⟨?_, ?_, ?_, ?_⟩
  · rw [hok]
    rfl
  · rw [hok]
    rfl
  · intro k
    by_cases hk : k = s
    · subst hk
      simp only [ft_balance_of]
      rw [hacc]
      exact umGetD_umInsert_self _ _ _
    · simp only [ft_balance_of]
      rw [hacc, umGetD_umInsert_ne _ _ _ _ hk, umGetD_umInsert_ne _ _ _ _ hk]
  · have h1 := umSum_umInsert (umInsert c.accounts s (umGetD c.accounts s - a)) s
      (umGetD c.accounts s)
    have h1' : umGetD (umInsert c.accounts s (umGetD c.accounts s - a)) s =
        umGetD c.accounts s - a := umGetD_umInsert_self _ _ _
    have h2 := umSum_insert_sub c.accounts s a hle
    simp only [supplyOf]
    rw [hacc, hfund]
    omega

/-- C8 witness: `bob` transfers his whole balance of 5 to himself on the
sample state: success, balance still 5, supply unchanged, event emitted. -/
theorem C8_self_transfer_witness :
    isSuccess (ft_transfer cS "bob" "bob" 5) = true ∧
    emittedEvents (ft_transfer cS "bob" "bob" 5) =
      [Event.ftTransfer "bob" "bob" 5 (some "transfered")] ∧
    ft_balance_of (step cS (Op.transfer "bob" "bob" 5)) "bob" = 5 ∧
    supplyOf (step cS (Op.transfer "bob" "bob" 5)) = supplyOf cS := by
  have h := C8_self_transfer cS "bob" 5 (by decide) (by decide)
  exact ⟨h.1, h.2.1, (h.2.2.1 "bob").trans (by decide), h.2.2.2⟩

/-- C9: configuration immutability. No operation ever changes the metadata,
the canMint flag, the canBurn flag or the glue identity; the owner identity
changes exactly when the current owner runs changeOwner (to the new address),
and changeOwner changes no account or fund balances. -/
theorem C9_config_immutability (c : Contract) (op : Op) (s ad : AccountId) :
    (step c op).metadata = c.metadata ∧
    (step c op).canMint = c.canMint ∧
    (step c op).canBurn = c.canBurn ∧
    (step c op).glueId = c.glueId ∧
    (step c op).ownerId =
      (match op with
       | Op.chOwner s' ad' => if s' = c.ownerId then ad' else c.ownerId
       | _ => c.ownerId) ∧
    (step c (Op.chOwner s ad)).accounts = c.accounts ∧
    (step c (Op.chOwner s ad)).fundAccounts = c.fundAccounts := by
  obtain ⟨h1, h2, h3, h4, h5⟩ := step_fields c op
  obtain ⟨h6, h7⟩ := step_chOwner_balances c s ad
  exact ⟨h1, h2, h3, h4, h5, h6, h7⟩

/-- C10: zero-amount transfer. For every caller — even one with no account
entry — and every receiver (whose stored balance is in u128 range, as all
reachable balances are), `ft_transfer(receiver, 0)` succeeds, emits a Transfer
event, changes no balance value, and afterwards both the caller and the
receiver have a map entry; when both were absent and differ, `total_users`
grows by exactly 2. -/
theorem C10_zero_transfer (c : Contract) (s r : AccountId)
    (hv : umGetD c.accounts r < modulus) :
    isSuccess (ft_transfer c s r 0) = true ∧
    emittedEvents (ft_transfer c s r 0) =
      [Event.ftTransfer s r 0 (some "transfered")] ∧
    (∀ k, ft_balance_of (step c (Op.transfer s r 0)) k = ft_balance_of c k) ∧
    (umGet (step c (Op.transfer s r 0)).accounts s).isSome = true ∧
    (umGet (step c (Op.transfer s r 0)).accounts r).isSome = true ∧
    (umGet c.accounts s = none → r ≠ s → umGet c.accounts r = none →
      total_users (step c (Op.transfer s r 0)) = total_users c + 2) := by
  have hle : (0 : Nat) ≤ umGetD c.accounts s := Nat.zero_le _
  have hok := ft_transfer_eq_ok c s r 0 hle
  have hstep : step c (Op.transfer s r 0) =
      internal_deposit
        { c with accounts := umInsert c.accounts s (umGetD c.accounts s - 0) } r 0 := by
    simp [step, applyOp, hok]
  have hacc : (step c (Op.transfer s r 0)).accounts =
      umInsert (umInsert c.accounts s (umGetD c.accounts s - 0)) r
        ((umGetD (umInsert c.accounts s (umGetD c.accounts s - 0)) r + 0) %
          modulus) := by
    rw [hstep]
    rfl
  refine ⟨?_, ?_, ?_, ?_, ?_, ?_⟩
  · rw [hok]
    rfl
  · rw [hok]
    rfl
  · intro k
    simp only [ft_balance_of]
    rw [hacc]
    by_cases hkr : k = r
    · subst hkr
      rw [umGetD_umInsert_self]
      by_cases hks : k = s
      · subst hks
        rw [umGetD_umInsert_self, Nat.sub_zero, Nat.add_zero,
          Nat.mod_eq_of_lt hv]
      · rw [umGetD_umInsert_ne _ _ _ _ hks, Nat.add_zero, Nat.mod_eq_of_lt hv]
    · rw [umGetD_umInsert_ne _ _ _ _ hkr]
      by_cases hks : k = s
      · subst hks
        rw [umGetD_umInsert_self, Nat.sub_zero]
      · rw [umGetD_umInsert_ne _ _ _ _ hks]
  · rw [hacc]
    by_cases hsr : s = r
    · subst hsr
      rw [umGet_umInsert_self]
      rfl
    · rw [umGet_umInsert_ne _ _ _ _ hsr, umGet_umInsert_self]
      rfl
  · rw [hacc, umGet_umInsert_self]
    rfl
  · intro h1 h2 h3
    simp only [total_users]
    rw [hacc, length_umInsert, length_umInsert,
      umGet_umInsert_ne c.accounts s r _ h2, h1, h3]
    simp

/-- C10 witness: on a state with no accounts at all, a zero transfer from
`alice` to `bob` succeeds, emits an event, and creates both entries, raising
`total_users` from 0 to 2. -/
theorem C10_zero_transfer_witness :
    isSuccess (ft_transfer cEmpty "alice" "bob" 0) = true ∧
    emittedEvents (ft_transfer cEmpty "alice" "bob" 0) =
      [Event.ftTransfer "alice" "bob" 0 (some "transfered")] ∧
    total_users (step cEmpty (Op.transfer "alice" "bob" 0)) = 2 := by
  have h := C10_zero_transfer cEmpty "alice" "bob" (by decide)
  refine ⟨h.1, h.2.1, ?_⟩
  have ht := h.2.2.2.2.2 (by decide) (by decide) (by decide)
  exact ht

end ChildContract
